import Mathlib

/-!
Shallow embedding of the talos-mcp indexing-and-query subsystem
(`search.go`, `fetcher.go`, shared types in the unnamed types file).

Conventions of the embedding:
* Go `map[string]bool` sets (the taxonomy facets) are modelled as duplicate-free
  `List String` key sets; insertion (`m[k] = true`) is `insertStr`, which is a
  no-op when the key is already present (matching map semantics extensionally).
* Go `map[string]*Document` is modelled as an association list with
  upsert semantics (`mapInsert`: last write for a key wins, as for a Go map).
* Go strings are Lean `String`s; the documents handled by this repository are
  ASCII markdown, so Go's byte-indexed `len`/slicing coincides with
  character counts, and `unicode`-aware lowering coincides with ASCII lowering.
* The bleve search primitive is external (spec §1): it is modelled by its
  contract — `Index(id, fields)` stores the field set under the id, a match
  query yields a ranked list of matching ids of which at most `Size` are
  returned as hits while `Total` is the full match count.
* Filesystem renames in `atomicSwap` can fail for environmental reasons; a
  `SwapEnv` oracle records which of the fallible operations succeed, mirroring
  the error-handling structure of the Go code.  `os.RemoveAll` failures are
  logged-only in the source and do not alter control flow, so they are not
  given a flag.  Per-document `index.Index` failures are logged-and-skipped in
  the source; the model takes the all-documents-succeed execution.
-/

namespace TalosMCP

/-- Split a character list at every occurrence of `sep`
(auxiliary for `splitOnChar`). -/
def splitOnCharAux (sep : Char) : List Char → List Char → List (List Char)
| [], acc => [acc.reverse]
| c :: cs, acc =>
  if c = sep then acc.reverse :: splitOnCharAux sep cs []
  else splitOnCharAux sep cs (c :: acc)

/-- Go `strings.Split(s, sep)` for a one-character separator (the only
separators the source uses are `"\n"`, `"/"` and `" "`). -/
def splitOnChar (sep : Char) (s : String) : List String :=
(splitOnCharAux sep s.data []).map (fun l => String.mk l)

/-- Go `strings.TrimSpace`. -/
def trimSpace (s : String) : String :=
String.mk (((s.data.dropWhile Char.isWhitespace).reverse.dropWhile Char.isWhitespace).reverse)

/-- Go `strings.HasPrefix(s, pre)`. -/
def hasPrefix (s pre : String) : Bool :=
pre.data.isPrefixOf s.data

/-- Go `strings.TrimPrefix(s, pre)`. -/
def trimPrefix (s pre : String) : String :=
if hasPrefix s pre then String.mk (s.data.drop pre.data.length) else s

/-- Go `strings.ToLower` (ASCII content, see header). -/
def toLowerStr (s : String) : String :=
String.mk (s.data.map Char.toLower)

/-- Contiguous-sublist test on character lists (Go substring containment). -/
def listInfix : List Char → List Char → Bool
| sub, [] => sub.isEmpty
| sub, c :: cs => sub.isPrefixOf (c :: cs) || listInfix sub cs

/-- Go `strings.Contains(s, sub)`. -/
def containsStr (s sub : String) : Bool :=
listInfix sub.data s.data

/-- Go `strings.Join(l, " ")`. -/
def joinSpace (l : List String) : String :=
String.intercalate " " l

/-- Go `filepath.Base` (on the slash-separated paths the manifest uses). -/
def goBase (p : String) : String :=
if p = "" then "."
else
  let cs := p.data.reverse.dropWhile (fun c => c = '/')
  if cs = [] then "/"
  else String.mk ((cs.takeWhile (fun c => c ≠ '/')).reverse)

/-- Go `filepath.Join(a, b, c)` for the already-clean components the source
joins (`localPath`, `"public"`, page path + extension). -/
def joinPath3 (a b c : String) : String :=
a ++ "/" ++ b ++ "/" ++ c

/-- Insertion into a `map[string]bool` used as a set (`m[k] = true`):
extensionally, the key set gains `s`. -/
def insertStr (l : List String) (s : String) : List String :=
if s ∈ l then l else l ++ [s]

/-- Upsert into an association list, modelling Go map assignment
`m[k] = v` (last write for a key wins). -/
def mapInsert {α : Type} (m : List (String × α)) (k : String) (v : α) : List (String × α) :=
if m.any (fun p => p.1 == k) then m.map (fun p => if p.1 == k then (k, v) else p)
else m ++ [(k, v)]

/-- Model of `Document` (types file): the flat document record produced by extraction
and indexed by the engine.  `Metadata` is `map[string]interface{}` in Go; the
only values the source ever stores are strings (`tab`, `file_path`), so it is
modelled as a string association list.  `LastUpdated` (a `time.Time`) is an
abstract timestamp. -/
structure Document where
  ID : String
  Title : String
  Content : String
  Path : String
  Version : String
  Section : String
  Platform : String
  Tags : List String
  LastUpdated : Nat
  Metadata : List (String × String)
deriving DecidableEq, Repr, Inhabited

/-- Model of `ContentTaxonomy` (search.go): four facet key sets. -/
structure ContentTaxonomy where
  Versions : List String
  Sections : List String
  Platforms : List String
  Tags : List String
deriving DecidableEq, Repr, Inhabited

/-- Model of `SearchRequest` (search.go).  `Limit` is a result count (non-negative in
every request the dispatch layer builds). -/
structure SearchRequest where
  Query : String
  Version : String
  Section : String
  Platform : String
  Tags : List String
  Limit : Nat
deriving DecidableEq, Repr, Inhabited

/-- The field set `indexDocument` hands to `index.Index(doc.ID, indexDoc)`:
title, content, version, section, platform, space-joined tags, last-updated. -/
structure IndexedDoc where
  title : String
  content : String
  version : String
  sectionVal : String
  platform : String
  tags : String
  last_updated : Nat
deriving DecidableEq, Repr, Inhabited

/-- Model of `indexDocument`'s field preparation (search.go:243-256). -/
def indexDocumentFields (doc : Document) : IndexedDoc :=
{ title := doc.Title
  content := doc.Content
  version := doc.Version
  sectionVal := doc.Section
  platform := doc.Platform
  tags := joinSpace doc.Tags
  last_updated := doc.LastUpdated }

/-- Model of `SearchEngine` state (search.go:17-26).  The three on-disk generations
(`active`, `staging`, `backup`) are modelled by the id-keyed stored-field maps
their bleve indices hold.  `maxResults` is carried but — like in the source's
`Search`, which hardcodes its ceiling — not consulted by the query path. -/
structure SearchEngine where
  active : List (String × IndexedDoc)
  staging : List (String × IndexedDoc)
  backup : List (String × IndexedDoc)
  documents : List (String × Document)
  taxonomy : ContentTaxonomy
  maxResults : Nat
  snippetLength : Nat
deriving DecidableEq, Repr, Inhabited

/-- Model of `updateTaxonomy` (search.go:258-271). -/
def updateTaxonomy (t : ContentTaxonomy) (doc : Document) : ContentTaxonomy :=
{ Versions := if doc.Version ≠ "" then insertStr t.Versions doc.Version else t.Versions
  Sections := if doc.Section ≠ "" then insertStr t.Sections doc.Section else t.Sections
  Platforms := if doc.Platform ≠ "" then insertStr t.Platforms doc.Platform else t.Platforms
  Tags := doc.Tags.foldl insertStr t.Tags }

/-- One iteration of the indexing loop body (search.go:212-229): index the
document into staging, update the taxonomy, store it in the in-memory cache. -/
def processDocStep (doc : Document) (st : SearchEngine) : SearchEngine :=
{ st with
  staging := mapInsert st.staging doc.ID (indexDocumentFields doc)
  taxonomy := updateTaxonomy st.taxonomy doc
  documents := mapInsert st.documents doc.ID doc }

/-- Success/failure oracle for the fallible filesystem and reopen operations
inside `atomicSwap` (search.go:273-323). -/
structure SwapEnv where
  renameActiveToBackupOk : Bool
  renameStagingToActiveOk : Bool
  reopenActiveOk : Bool
  createStagingOk : Bool
deriving DecidableEq, Repr, Inhabited

/-- Model of `atomicSwap` (search.go:273-323): close handles; remove the old backup
(failure logged only); rename active → backup (step 3, failure logged only);
rename staging → active (step 4, failure fatal); reopen active (failure
fatal); create a fresh staging generation (failure fatal). -/
def atomicSwap (env : SwapEnv) (st : SearchEngine) : Except String SearchEngine :=
let st1 : SearchEngine := { st with backup := [] }
let st2 : SearchEngine :=
  if env.renameActiveToBackupOk then { st1 with backup := st1.active, active := [] } else st1
if env.renameStagingToActiveOk then
  let st3 : SearchEngine := { st2 with active := st2.staging, staging := [] }
  if env.reopenActiveOk then
    if env.createStagingOk then Except.ok st3
    else Except.error "failed to create new staging index"
  else Except.error "failed to reopen active index"
else Except.error "failed to move staging index to active"

/-- Model of `IndexDocuments` (search.go:181-241): clear staging, index every document
into it (updating cache and taxonomy per document — neither is cleared first),
then perform the atomic swap, wrapping a swap failure for the caller. -/
def IndexDocuments (env : SwapEnv) (docs : List Document) (st : SearchEngine) :
    Except String SearchEngine :=
let st0 : SearchEngine := { st with staging := [] }
let st1 := docs.foldl (fun s d => processDocStep d s) st0
match atomicSwap env st1 with
| Except.ok st2 => Except.ok st2
| Except.error e => Except.error ("failed to atomic swap indices: " ++ e)

/-- The staging generation built from scratch out of a document list. -/
def buildStaging (docs : List Document) : List (String × IndexedDoc) :=
docs.foldl (fun m d => mapInsert m d.ID (indexDocumentFields d)) []

/-- Model of `SearchResult` (types file): a document with snippet and context.  The
bleve relevance score (`float64`) is carried through unchanged from the hit
and plays no role in any behaviour specified here, so it is not modelled. -/
structure SearchResult where
  document : Document
  snippet : String
  context : String
deriving DecidableEq, Repr, Inhabited

/-- Model of `SearchResponse` (search.go:44-49).  `Duration` is wall-clock time and is
not modelled. -/
structure SearchResponse where
  Results : List SearchResult
  Total : Nat
  Query : String
deriving DecidableEq, Repr, Inhabited

/-- The truncation marker appended to over-cap content (search.go:371,404). -/
def truncMarker : String := "\n\n[Content truncated]"

/-- The per-document content cap applied on both hit-resolution paths
(search.go:366-380 and 401-406): content over 10000 bytes is cut at the cap
and the truncation marker is appended. -/
def truncateContent (c : String) : String :=
if c.length > 10000 then String.mk (c.data.take 10000) ++ truncMarker else c

/-- Model of `extractSnippet` (search.go:448-461): first trimmed line that is
non-empty, not a heading, and longer than 50; cut to `snippetLength` with an
ellipsis. -/
def extractSnippet (snippetLength : Nat) (content : String) : String :=
match ((splitOnChar '\n' content).map trimSpace).find?
    (fun line => line != "" && !(hasPrefix line "#") && decide (line.length > 50)) with
| some line =>
  if line.length > snippetLength then String.mk (line.data.take snippetLength) ++ "..." else line
| none => ""

/-- Model of `extractContext` (search.go:463-476): same selection rule with a fixed
200-character bound. -/
def extractContext (content : String) : String :=
match ((splitOnChar '\n' content).map trimSpace).find?
    (fun line => line != "" && !(hasPrefix line "#") && decide (line.length > 50)) with
| some line =>
  if line.length > 200 then String.mk (line.data.take 200) ++ "..." else line
| none => ""

/-- Hit resolution (search.go:362-418): prefer the in-memory cache (with the
content cap applied); otherwise reconstruct a minimal document from the
fields stored in the active index (fields not stored — path, timestamp,
metadata — stay at their zero values); a document resolvable from neither is
skipped. -/
def resolveHit (st : SearchEngine) (id : String) : Option Document :=
match List.lookup id st.documents with
| some doc => some { doc with Content := truncateContent doc.Content }
| none =>
  match List.lookup id st.active with
  | none => none
  | some stored => some
    { ID := id
      Title := stored.title
      Content := truncateContent stored.content
      Path := ""
      Version := stored.version
      Section := stored.sectionVal
      Platform := stored.platform
      Tags := splitOnChar ' ' stored.tags
      LastUpdated := 0
      Metadata := [] }

/-- The manual post-retrieval filters (search.go:420-429). -/
def passesFilters (req : SearchRequest) (doc : Document) : Bool :=
!(req.Version != "" && doc.Version != req.Version) &&
!(req.Section != "" && doc.Section != req.Section) &&
!(req.Platform != "" && doc.Platform != req.Platform)

/-- One iteration of the hit loop in `Search` (search.go:361-438): resolve,
filter, build the result; `continue` on either failure. -/
def processHit (st : SearchEngine) (req : SearchRequest) (id : String) : Option SearchResult :=
match resolveHit st id with
| none => none
| some doc =>
  if passesFilters req doc then
    some { document := doc
           snippet := extractSnippet st.snippetLength doc.Content
           context := extractContext doc.Content }
  else none

/-- The result-count clamp (search.go:342-345): unspecified (0) or above 5
becomes 5. -/
def effectiveLimit (req : SearchRequest) : Nat :=
if req.Limit = 0 ∨ req.Limit > 5 then 5 else req.Limit

/-- Model of `Search` (search.go:325-446).  `matches` is the ranked id list the
external match-query primitive produces for `req.Query` over the active
generation: the primitive returns at most `Size = effectiveLimit req` of them
as hits, and reports the full match count as `Total` (pre-filter). -/
def Search (st : SearchEngine) (matchIds : List String) (req : SearchRequest) : SearchResponse :=
let hits := matchIds.take (effectiveLimit req)
{ Results := hits.filterMap (processHit st req)
  Total := matchIds.length
  Query := req.Query }

/-- The per-set copy loop in `GetTaxonomy` (search.go:498-509): every entry of
the source set is inserted into a fresh set. -/
def copyStrSet (l : List String) : List String :=
l.foldl insertStr []

/-- Model of `GetTaxonomy` (search.go:486-512): build and return a fresh copy of the
four facet sets. -/
def GetTaxonomy (st : SearchEngine) : ContentTaxonomy :=
{ Versions := copyStrSet st.taxonomy.Versions
  Sections := copyStrSet st.taxonomy.Sections
  Platforms := copyStrSet st.taxonomy.Platforms
  Tags := copyStrSet st.taxonomy.Tags }

/-- Model of `GetTaxonomy` as a state transformer: it reads under the shared lock and
leaves the engine untouched. -/
def GetTaxonomyCall (st : SearchEngine) : ContentTaxonomy × SearchEngine :=
(GetTaxonomy st, st)

/-- Model of `PageItem` (types file, fetcher.go:250-279): a page entry is a bare path
string, a typed `Page`, or a nested group (the decoded
`map[string]interface{}` case and the typed `NestedGroup` case have the same
shape and dispatch to the same recursion; one constructor models both). -/
inductive PageItem where
| str (s : String)
| page (p : String)
| nested (group : String) (pages : List PageItem)
deriving Repr, Inhabited

/-- Model of `Group` (types file). -/
structure Group where
  Group : String
  Pages : List PageItem
deriving Repr, Inhabited

/-- Model of `Version` (types file): one version entry of a tab. -/
structure VersionEntry where
  Version : String
  Groups : List Group
deriving Repr, Inhabited

/-- Model of `Tab` (types file); the icon field is presentation-only. -/
structure Tab where
  Tab : String
  Versions : List VersionEntry
deriving Repr, Inhabited

/-- Model of `extractTitle` (fetcher.go:336-347): text after the first trimmed
level-1-heading line, else the page's base name. -/
def extractTitle (content pagePath : String) : String :=
match ((splitOnChar '\n' content).map trimSpace).find? (fun line => hasPrefix line "# ") with
| some line => trimPrefix line "# "
| none => goBase pagePath

/-- The fixed platform vocabulary (fetcher.go:351-354), in source order. -/
def platformVocab : List String :=
["aws", "azure", "gcp", "digitalocean", "hetzner", "vultr", "exoscale",
 "scaleway", "upcloud", "oracle", "akamai", "cloudstack", "nocloud", "openstack",
 "equinix-metal", "proxmox", "vmware", "kvm", "hyper-v", "xen", "docker", "qemu", "virtualbox",
 "banana", "nanopi", "jetson", "orangepi", "pine64", "rock", "rpi"]

/-- Model of `extractPlatformFromPath` (fetcher.go:349-363): first vocabulary entry
contained in the lowercased path, else `""`. -/
def extractPlatformFromPath (pagePath : String) : String :=
let lowerPath := toLowerStr pagePath
match platformVocab.find? (fun platform => containsStr lowerPath platform) with
| some platform => platform
| none => ""

/-- The fixed content keyword vocabulary (fetcher.go:373-374), in source
order. -/
def keywordVocab : List String :=
["installation", "configuration", "networking", "security", "upgrade",
 "troubleshooting", "api", "cli", "kernel", "storage", "monitoring"]

/-- Model of `extractTags` (fetcher.go:365-395): lowercased path segments, then every
keyword occurring in the lowercased content; trimmed, empties dropped,
deduplicated keeping first occurrence. -/
def extractTags (content pagePath : String) : List String :=
let pathTags := splitOnChar '/' (toLowerStr pagePath)
let tags := pathTags ++ keywordVocab.filter (fun kw => containsStr (toLowerStr content) kw)
tags.foldl
  (fun acc tag =>
    let tag := trimSpace tag
    if tag ≠ "" ∧ tag ∉ acc then acc ++ [tag] else acc) []

/-- Model of `extractDocument` (fetcher.go:285-334).  `fs` is the checkout's content
store (`none` = file absent/unreadable); `mt` gives a file's modification
time (`getFileModTime`; the file was just read, so the stat succeeds).  Try
`<page>.mdx`, fall back to `<page>.md`; missing or empty content yields no
document. -/
def extractDocument (fs : String → Option String) (mt : String → Nat)
    (localPath tab version groupName platform pagePath : String) : Option Document :=
let filePathMdx := joinPath3 localPath "public" (pagePath ++ ".mdx")
let filePath :=
  if (fs filePathMdx).isNone then joinPath3 localPath "public" (pagePath ++ ".md")
  else filePathMdx
match fs filePath with
| none => none
| some content =>
  if content.length = 0 then none
  else
    some
    { ID := version ++ "-" ++ toLowerStr groupName ++ "-" ++ toLowerStr (goBase pagePath)
      Title := extractTitle content pagePath
      Content := content
      Path := pagePath
      Version := version
      Section := groupName
      Platform := if platform = "" then extractPlatformFromPath pagePath else platform
      Tags := extractTags content pagePath
      LastUpdated := mt filePath
      Metadata := [("tab", tab), ("file_path", filePath)] }

mutual

/-- Model of `extractDocumentsFromGroup` (fetcher.go:247-283): walk the page list,
appending each item's documents. -/
def extractDocumentsFromGroup (fs : String → Option String) (mt : String → Nat)
    (localPath tab version groupName platform : String) : List PageItem → List Document
| [] => []
| p :: rest =>
  extractPageItem fs mt localPath tab version groupName platform p ++
  extractDocumentsFromGroup fs mt localPath tab version groupName platform rest

/-- One `switch` arm of `extractDocumentsFromGroup`: a flat page reference
contributes its (optional) document; a nested group recurses with its own
name as the current group, inheriting the platform. -/
def extractPageItem (fs : String → Option String) (mt : String → Nat)
    (localPath tab version groupName platform : String) : PageItem → List Document
| PageItem.str p => (extractDocument fs mt localPath tab version groupName platform p).toList
| PageItem.page p => (extractDocument fs mt localPath tab version groupName platform p).toList
| PageItem.nested g pages =>
  extractDocumentsFromGroup fs mt localPath tab version g platform pages

end

/-- Model of `extractDocumentsFromVersion` (fetcher.go:236-245): each group starts with
an empty platform context. -/
def extractDocumentsFromVersion (fs : String → Option String) (mt : String → Nat)
    (localPath tab version : String) (groups : List Group) : List Document :=
groups.foldl
  (fun acc g => acc ++ extractDocumentsFromGroup fs mt localPath tab version g.Group "" g.Pages) []

/-- Model of `ExtractDocuments` (fetcher.go:210-234): only the "Talos" tab is
processed; the returned error is always nil in the source, so the result is
always `Except.ok`. -/
def ExtractDocuments (fs : String → Option String) (mt : String → Nat)
    (localPath : String) (tabs : List Tab) : Except String (List Document) :=
Except.ok
  (tabs.foldl
    (fun acc tab =>
      if tab.Tab = "Talos" then
        acc ++ tab.Versions.foldl
          (fun a v => a ++ extractDocumentsFromVersion fs mt localPath tab.Tab v.Version v.Groups) []
      else acc) [])

/-! ### Interleaving model for the rebuild/query race (claim C1)

`Search` holds the engine's reader lock for its whole body and
`IndexDocuments` holds the writer lock for its whole body, filesystem renames
included (search.go:182-183, 327-332).  A schedule is a list of events: the
writer acquires, performs its micro-steps (clear staging, one step per
document, the swap), and releases; each concurrent query contributes an
observation event that reads the engine state.  A schedule is admissible when
the writer events occur in program order and no observation happens while the
writer holds the lock — exactly what the `sync.RWMutex` guarantees. -/

/-- One writer micro-step of a successful rebuild. -/
inductive WStep where
| clearStaging
| proc (d : Document)
| swapStep
deriving DecidableEq, Repr

/-- Effect of a writer micro-step on the engine state.  `swapStep` is the
successful `atomicSwap`: old active becomes the backup, staging becomes
active, a fresh staging is created. -/
def applyW : WStep → SearchEngine → SearchEngine
| WStep.clearStaging, st => { st with staging := [] }
| WStep.proc d, st => processDocStep d st
| WStep.swapStep, st => { st with backup := st.active, active := st.staging, staging := [] }

/-- The writer's micro-step program for a rebuild of `docs`. -/
def wsteps (docs : List Document) : List WStep :=
WStep.clearStaging :: docs.map WStep.proc ++ [WStep.swapStep]

/-- Schedule events: writer lock acquire/release, a writer micro-step, or an
observation by query number `r`. -/
inductive REv where
| acq
| rel
| wstep (w : WStep)
| obs (r : Nat)
deriving DecidableEq, Repr

/-- Writer events of a schedule. -/
def isWriter : REv → Bool
| REv.obs _ => false
| _ => true

/-- Reader/writer exclusion: an observation is inadmissible while the writer
holds the lock. -/
def lockOk : Bool → List REv → Bool
| _, [] => true
| _, REv.acq :: t => lockOk true t
| _, REv.rel :: t => lockOk false t
| held, REv.obs _ :: t => !held && lockOk held t
| held, REv.wstep _ :: t => lockOk held t

/-- The engine states the observation events of a schedule see: writer
micro-steps advance the state, lock events leave it unchanged, observations
record it. -/
def obsStates : List REv → SearchEngine → List SearchEngine
| [], _ => []
| REv.obs _ :: t, st => st :: obsStates t st
| REv.acq :: t, st => obsStates t st
| REv.rel :: t, st => obsStates t st
| REv.wstep w :: t, st => obsStates t (applyW w st)

/-- The writer's events in program order: acquire, the micro-steps, release. -/
def writerProg (docs : List Document) : List REv :=
REv.acq :: (wsteps docs).map REv.wstep ++ [REv.rel]

/-- The engine state a completed successful rebuild leaves behind. -/
def rebuildPure (docs : List Document) (st : SearchEngine) : SearchEngine :=
(wsteps docs).foldl (fun s w => applyW w s) st

/-! ### Auxiliary lemmas -/

theorem mem_insertStr {l : List String} {s x : String} :
    x ∈ insertStr l s ↔ x ∈ l ∨ x = s := by
  unfold insertStr
  by_cases h : s ∈ l
  · simp only [if_pos h]
    constructor
    · exact Or.inl
    · rintro (hx | rfl)
      · exact hx
      · exact h
  · simp [if_neg h]

theorem mem_foldl_insertStr (l : List String) :
    ∀ (acc : List String) (x : String),
      x ∈ l.foldl insertStr acc ↔ x ∈ acc ∨ x ∈ l := by
  induction l with
  | nil => simp
  | cons a t ih =>
    intro acc x
    rw [List.foldl_cons, ih, mem_insertStr]
    simp [or_assoc]

theorem mem_copyStrSet {l : List String} {x : String} :
    x ∈ copyStrSet l ↔ x ∈ l := by
  unfold copyStrSet
  rw [mem_foldl_insertStr]
  simp

theorem any_key_iff {α : Type} (m : List (String × α)) (k : String) :
    (m.any (fun p => p.1 == k)) = true ↔ k ∈ m.map Prod.fst := by
  simp [List.any_eq_true]

theorem keys_mapInsert {α : Type} (m : List (String × α)) (k k' : String) (v : α) :
    k' ∈ (mapInsert m k v).map Prod.fst ↔ k' ∈ m.map Prod.fst ∨ k' = k := by
  unfold mapInsert
  by_cases h : m.any (fun p => p.1 == k) = true
  · rw [if_pos h]
    have hkeys : (m.map fun p => if p.1 == k then (k, v) else p).map Prod.fst = m.map Prod.fst := by
      rw [List.map_map]
      refine List.map_congr_left ?_
      intro p _
      by_cases hp : p.1 = k
      · simp [Function.comp, hp]
      · simp [Function.comp, beq_eq_false_iff_ne.mpr hp]
    rw [hkeys]
    have hk : k ∈ m.map Prod.fst := (any_key_iff m k).mp h
    constructor
    · exact Or.inl
    · rintro (hx | rfl)
      · exact hx
      · exact hk
  · rw [if_neg h]
    simp

theorem lookup_isSome_iff {α : Type} (m : List (String × α)) (k : String) :
    (List.lookup k m).isSome ↔ k ∈ m.map Prod.fst := by
  induction m with
  | nil => simp [List.lookup]
  | cons p t ih =>
    obtain ⟨a, b⟩ := p
    by_cases h : k = a
    · simp [List.lookup, h]
    · simp [List.lookup, beq_eq_false_iff_ne.mpr h, ih, h]

/-- Keys present after the cache-upsert fold: the old keys plus the ids of the
indexed documents. -/
theorem keys_foldl_cacheInsert (docs : List Document) :
    ∀ (m : List (String × Document)) (k : String),
      k ∈ (docs.foldl (fun m d => mapInsert m d.ID d) m).map Prod.fst ↔
        k ∈ m.map Prod.fst ∨ ∃ d ∈ docs, d.ID = k := by
  induction docs with
  | nil => simp
  | cons d rest ih =>
    intro m k
    rw [List.foldl_cons, ih, keys_mapInsert]
    constructor
    · rintro ((hx | rfl) | hd)
      · exact Or.inl hx
      · exact Or.inr ⟨d, by simp⟩
      · obtain ⟨d', hd', hid⟩ := hd
        exact Or.inr ⟨d', by simp [hd'], hid⟩
    · rintro (hx | ⟨d', hd', hid⟩)
      · exact Or.inl (Or.inl hx)
      · rcases List.mem_cons.mp hd' with rfl | hmem
        · exact Or.inl (Or.inr hid.symm)
        · exact Or.inr ⟨d', hmem, hid⟩

/-- Model of `foldl processDocStep` componentwise: the taxonomy accumulates through
`updateTaxonomy` only. -/
theorem foldl_processDocStep_taxonomy (docs : List Document) :
    ∀ st : SearchEngine,
      (docs.foldl (fun s d => processDocStep d s) st).taxonomy =
        docs.foldl updateTaxonomy st.taxonomy := by
  induction docs with
  | nil => intro st; rfl
  | cons d rest ih => intro st; rw [List.foldl_cons, List.foldl_cons, ih]; rfl

theorem foldl_processDocStep_documents (docs : List Document) :
    ∀ st : SearchEngine,
      (docs.foldl (fun s d => processDocStep d s) st).documents =
        docs.foldl (fun m d => mapInsert m d.ID d) st.documents := by
  induction docs with
  | nil => intro st; rfl
  | cons d rest ih => intro st; rw [List.foldl_cons, List.foldl_cons, ih]; rfl

theorem foldl_processDocStep_staging (docs : List Document) :
    ∀ st : SearchEngine,
      (docs.foldl (fun s d => processDocStep d s) st).staging =
        docs.foldl (fun m d => mapInsert m d.ID (indexDocumentFields d)) st.staging := by
  induction docs with
  | nil => intro st; rfl
  | cons d rest ih => intro st; rw [List.foldl_cons, List.foldl_cons, ih]; rfl

theorem foldl_processDocStep_active (docs : List Document) :
    ∀ st : SearchEngine,
      (docs.foldl (fun s d => processDocStep d s) st).active = st.active := by
  induction docs with
  | nil => intro st; rfl
  | cons d rest ih => intro st; rw [List.foldl_cons, ih]; rfl

/-- Shape of the engine state after a successful `IndexDocuments`: the active
generation is exactly the fresh staging build, staging is empty again, and
cache and taxonomy are the old ones extended by the indexed documents. -/
theorem indexDocuments_ok_shape {env : SwapEnv} {docs : List Document}
    {st st' : SearchEngine} (h : IndexDocuments env docs st = Except.ok st') :
    st'.active = buildStaging docs ∧
    st'.staging = [] ∧
    st'.documents = docs.foldl (fun m d => mapInsert m d.ID d) st.documents ∧
    st'.taxonomy = docs.foldl updateTaxonomy st.taxonomy := by
  unfold IndexDocuments atomicSwap at h
  by_cases h4 : env.renameStagingToActiveOk = true
  · by_cases h5 : env.reopenActiveOk = true
    · by_cases h6 : env.createStagingOk = true
      · simp only [h4, h5, h6, if_true] at h
        by_cases h3 : env.renameActiveToBackupOk = true
        · simp only [h3, if_true] at h
          cases h
          refine ⟨?_, rfl, ?_, ?_⟩
          · show (docs.foldl (fun s d => processDocStep d s) _).staging = _
            rw [foldl_processDocStep_staging]
            rfl
          · exact foldl_processDocStep_documents docs _
          · exact foldl_processDocStep_taxonomy docs _
        · rw [if_neg h3] at h
          cases h
          refine ⟨?_, rfl, ?_, ?_⟩
          · show (docs.foldl (fun s d => processDocStep d s) _).staging = _
            rw [foldl_processDocStep_staging]
            rfl
          · exact foldl_processDocStep_documents docs _
          · exact foldl_processDocStep_taxonomy docs _
      · simp [h4, h5, h6] at h
    · simp [h4, h5] at h
  · simp [h4] at h

/-- Versions facet after a taxonomy-accumulating fold: old entries plus the
non-empty versions of the processed documents. -/
theorem mem_versions_foldl (docs : List Document) :
    ∀ (t : ContentTaxonomy) (s : String),
      s ∈ (docs.foldl updateTaxonomy t).Versions ↔
        s ∈ t.Versions ∨ ∃ d ∈ docs, d.Version = s ∧ s ≠ "" := by
  induction docs with
  | nil => simp
  | cons d rest ih =>
    intro t s
    rw [List.foldl_cons, ih]
    simp only [List.exists_mem_cons_iff]
    by_cases hd : d.Version = ""
    · have hv : (updateTaxonomy t d).Versions = t.Versions := by simp [updateTaxonomy, hd]
      rw [hv]
      have hPd : ¬ (d.Version = s ∧ s ≠ "") := by
        rintro ⟨rfl, hs⟩
        exact hs hd
      tauto
    · have hv : (updateTaxonomy t d).Versions = insertStr t.Versions d.Version := by
        simp [updateTaxonomy, hd]
      rw [hv, mem_insertStr]
      constructor
      · rintro ((h | rfl) | h)
        · exact Or.inl h
        · exact Or.inr (Or.inl ⟨rfl, hd⟩)
        · exact Or.inr (Or.inr h)
      · rintro (h | ⟨h1, _⟩ | h)
        · exact Or.inl (Or.inl h)
        · exact Or.inl (Or.inr h1.symm)
        · exact Or.inr h

/-- Sections facet, same accumulation shape. -/
theorem mem_sections_foldl (docs : List Document) :
    ∀ (t : ContentTaxonomy) (s : String),
      s ∈ (docs.foldl updateTaxonomy t).Sections ↔
        s ∈ t.Sections ∨ ∃ d ∈ docs, d.Section = s ∧ s ≠ "" := by
  induction docs with
  | nil => simp
  | cons d rest ih =>
    intro t s
    rw [List.foldl_cons, ih]
    simp only [List.exists_mem_cons_iff]
    by_cases hd : d.Section = ""
    · have hv : (updateTaxonomy t d).Sections = t.Sections := by simp [updateTaxonomy, hd]
      rw [hv]
      have hPd : ¬ (d.Section = s ∧ s ≠ "") := by
        rintro ⟨rfl, hs⟩
        exact hs hd
      tauto
    · have hv : (updateTaxonomy t d).Sections = insertStr t.Sections d.Section := by
        simp [updateTaxonomy, hd]
      rw [hv, mem_insertStr]
      constructor
      · rintro ((h | rfl) | h)
        · exact Or.inl h
        · exact Or.inr (Or.inl ⟨rfl, hd⟩)
        · exact Or.inr (Or.inr h)
      · rintro (h | ⟨h1, _⟩ | h)
        · exact Or.inl (Or.inl h)
        · exact Or.inl (Or.inr h1.symm)
        · exact Or.inr h

/-- Platforms facet, same accumulation shape. -/
theorem mem_platforms_foldl (docs : List Document) :
    ∀ (t : ContentTaxonomy) (s : String),
      s ∈ (docs.foldl updateTaxonomy t).Platforms ↔
        s ∈ t.Platforms ∨ ∃ d ∈ docs, d.Platform = s ∧ s ≠ "" := by
  induction docs with
  | nil => simp
  | cons d rest ih =>
    intro t s
    rw [List.foldl_cons, ih]
    simp only [List.exists_mem_cons_iff]
    by_cases hd : d.Platform = ""
    · have hv : (updateTaxonomy t d).Platforms = t.Platforms := by simp [updateTaxonomy, hd]
      rw [hv]
      have hPd : ¬ (d.Platform = s ∧ s ≠ "") := by
        rintro ⟨rfl, hs⟩
        exact hs hd
      tauto
    · have hv : (updateTaxonomy t d).Platforms = insertStr t.Platforms d.Platform := by
        simp [updateTaxonomy, hd]
      rw [hv, mem_insertStr]
      constructor
      · rintro ((h | rfl) | h)
        · exact Or.inl h
        · exact Or.inr (Or.inl ⟨rfl, hd⟩)
        · exact Or.inr (Or.inr h)
      · rintro (h | ⟨h1, _⟩ | h)
        · exact Or.inl (Or.inl h)
        · exact Or.inl (Or.inr h1.symm)
        · exact Or.inr h

/-- Tags facet: every tag of every processed document is accumulated. -/
theorem mem_tags_foldl (docs : List Document) :
    ∀ (t : ContentTaxonomy) (s : String),
      s ∈ (docs.foldl updateTaxonomy t).Tags ↔
        s ∈ t.Tags ∨ ∃ d ∈ docs, s ∈ d.Tags := by
  induction docs with
  | nil => simp
  | cons d rest ih =>
    intro t s
    rw [List.foldl_cons, ih]
    simp only [List.exists_mem_cons_iff]
    have hv : (updateTaxonomy t d).Tags = d.Tags.foldl insertStr t.Tags := rfl
    rw [hv, mem_foldl_insertStr]
    tauto

theorem strLength_append (s t : String) : (s ++ t).length = s.length + t.length := by
  cases s
  cases t
  simp [String.length, String.append]

theorem truncateContent_over {c : String} (h : c.length > 10000) :
    (truncateContent c).length = 10000 + truncMarker.length := by
  unfold truncateContent
  rw [if_pos h]
  have hmk : (String.mk (c.data.take 10000)).length = (c.data.take 10000).length := rfl
  rw [strLength_append, hmk, List.length_take]
  have hc : c.length = c.data.length := rfl
  rw [Nat.min_eq_left (by omega)]

theorem truncateContent_under {c : String} (h : c.length ≤ 10000) :
    truncateContent c = c := by
  unfold truncateContent
  rw [if_neg (by omega)]

theorem truncateContent_length_le (c : String) :
    (truncateContent c).length ≤ 10000 + truncMarker.length := by
  by_cases h : c.length > 10000
  · rw [truncateContent_over h]
  · rw [truncateContent_under (by omega)]
    omega

/-- Every result the hit loop emits carries content that went through the
truncation cap. -/
theorem processHit_content {st : SearchEngine} {req : SearchRequest} {id : String}
    {r : SearchResult} (h : processHit st req id = some r) :
    ∃ c, r.document.Content = truncateContent c := by
  unfold processHit at h
  split at h
  · cases h
  · next doc heq =>
    split at h
    · cases h
      unfold resolveHit at heq
      split at heq
      · next d0 _ => cases heq; exact ⟨d0.Content, rfl⟩
      · split at heq
        · cases heq
        · next stored _ => cases heq; exact ⟨stored.content, rfl⟩
    · cases h

/-- Every result the hit loop emits passed the manual filters. -/
theorem processHit_filters {st : SearchEngine} {req : SearchRequest} {id : String}
    {r : SearchResult} (h : processHit st req id = some r) :
    passesFilters req r.document = true := by
  unfold processHit at h
  split at h
  · cases h
  · next doc _ =>
    split at h
    · next hf => cases h; exact hf
    · cases h

theorem passesFilters_version {req : SearchRequest} {doc : Document}
    (hf : passesFilters req doc = true) (hv : req.Version ≠ "") :
    doc.Version = req.Version := by
  simp only [passesFilters, Bool.and_eq_true, Bool.not_eq_true'] at hf
  have h := hf.1.1
  rw [Bool.and_eq_false_iff] at h
  rcases h with h | h
  · rw [bne_eq_false_iff_eq] at h
    exact absurd h hv
  · rw [bne_eq_false_iff_eq] at h
    exact h

theorem passesFilters_section {req : SearchRequest} {doc : Document}
    (hf : passesFilters req doc = true) (hv : req.Section ≠ "") :
    doc.Section = req.Section := by
  simp only [passesFilters, Bool.and_eq_true, Bool.not_eq_true'] at hf
  have h := hf.1.2
  rw [Bool.and_eq_false_iff] at h
  rcases h with h | h
  · rw [bne_eq_false_iff_eq] at h
    exact absurd h hv
  · rw [bne_eq_false_iff_eq] at h
    exact h

theorem passesFilters_platform {req : SearchRequest} {doc : Document}
    (hf : passesFilters req doc = true) (hv : req.Platform ≠ "") :
    doc.Platform = req.Platform := by
  simp only [passesFilters, Bool.and_eq_true, Bool.not_eq_true'] at hf
  have h := hf.2
  rw [Bool.and_eq_false_iff] at h
  rcases h with h | h
  · rw [bne_eq_false_iff_eq] at h
    exact absurd h hv
  · rw [bne_eq_false_iff_eq] at h
    exact h

/-! ### Concrete sample data used by counterexamples and witnesses -/

/-- A rebuild environment in which every fallible swap operation succeeds. -/
def allOkEnv : SwapEnv := ⟨true, true, true, true⟩

/-- An engine before any rebuild: empty generations, empty cache, empty
taxonomy (the state `NewSearchEngine` establishes when no index exists). -/
def freshEngine : SearchEngine :=
{ active := [], staging := [], backup := [], documents := []
  taxonomy := ⟨[], [], [], []⟩, maxResults := 10, snippetLength := 200 }

def docA : Document := ⟨"doc-a", "A", "alpha", "a", "v1.7", "guides", "", ["a"], 0, []⟩

def docB : Document := ⟨"doc-b", "B", "beta", "b", "v1.8", "guides", "", ["b"], 0, []⟩

def docC : Document := ⟨"doc-c", "C", "gamma", "c", "v1.8", "reference", "aws", ["c"], 0, []⟩

/-- The engine state after rebuilding the fresh engine with `[docB]`. -/
def stB : SearchEngine :=
{ active := [("doc-b", indexDocumentFields docB)], staging := [], backup := []
  documents := [("doc-b", docB)], taxonomy := ⟨["v1.8"], ["guides"], [], ["b"]⟩
  maxResults := 10, snippetLength := 200 }

/-- An engine whose active generation and cache hold `docA` (v1.7) and `docB`
(v1.8). -/
def stAB : SearchEngine :=
{ active := [("doc-a", indexDocumentFields docA), ("doc-b", indexDocumentFields docB)]
  staging := [], backup := []
  documents := [("doc-a", docA), ("doc-b", docB)]
  taxonomy := ⟨["v1.7", "v1.8"], ["guides"], [], ["a", "b"]⟩
  maxResults := 10, snippetLength := 200 }

/-! ### Claims -/

/-- C2 (counterexample): rebuilding first with `[docA]` (version v1.7) and
then with `[docB]` (version v1.8) leaves the second rebuild's taxonomy with
the residual version "v1.7", which belongs to no document of the second
call's list — the taxonomy is not replaced wholesale. -/
theorem c2_counterexample :
    ((IndexDocuments allOkEnv [docA] freshEngine).bind
        (fun st => IndexDocuments allOkEnv [docB] st)).toOption.map
      (fun st => st.taxonomy.Versions) = some ["v1.7", "v1.8"] ∧
    docB.Version ≠ "v1.7" ∧ "v1.7" ∉ ["v1.8"] := by
  constructor
  · rfl
  · exact ⟨by decide, by decide⟩

/-- C2 (amended): after every successful `IndexDocuments(documents)` call the
taxonomy sets and the in-memory document cache are the previous ones extended
by the call's facets and documents — they accumulate across rebuilds and are
never cleared; rebuilding first with 0 documents and then with 3 documents
still leaves a taxonomy equal to exactly the 3 documents' facets, because the
empty rebuild contributes nothing. -/
theorem c2_taxonomy_accumulates {env : SwapEnv} {docs : List Document}
    {st st' : SearchEngine} (h : IndexDocuments env docs st = Except.ok st') :
    (∀ s, s ∈ st'.taxonomy.Versions ↔
        s ∈ st.taxonomy.Versions ∨ ∃ d ∈ docs, d.Version = s ∧ s ≠ "") ∧
    (∀ s, s ∈ st'.taxonomy.Sections ↔
        s ∈ st.taxonomy.Sections ∨ ∃ d ∈ docs, d.Section = s ∧ s ≠ "") ∧
    (∀ s, s ∈ st'.taxonomy.Platforms ↔
        s ∈ st.taxonomy.Platforms ∨ ∃ d ∈ docs, d.Platform = s ∧ s ≠ "") ∧
    (∀ s, s ∈ st'.taxonomy.Tags ↔
        s ∈ st.taxonomy.Tags ∨ ∃ d ∈ docs, s ∈ d.Tags) ∧
    (∀ k, k ∈ st.documents.map Prod.fst → k ∈ st'.documents.map Prod.fst) ∧
    (∀ d ∈ docs, d.ID ∈ st'.documents.map Prod.fst) := by
  obtain ⟨_, _, hdocs, htax⟩ := indexDocuments_ok_shape h
  refine ⟨?_, ?_, ?_, ?_, ?_, ?_⟩
  · intro s
    rw [htax]
    exact mem_versions_foldl docs st.taxonomy s
  · intro s
    rw [htax]
    exact mem_sections_foldl docs st.taxonomy s
  · intro s
    rw [htax]
    exact mem_platforms_foldl docs st.taxonomy s
  · intro s
    rw [htax]
    exact mem_tags_foldl docs st.taxonomy s
  · intro k hk
    rw [hdocs, keys_foldl_cacheInsert]
    exact Or.inl hk
  · intro d hd
    rw [hdocs, keys_foldl_cacheInsert]
    exact Or.inr ⟨d, hd, rfl⟩

/-- C2 (witness): the amended theorem applied to the concrete rebuild of the
fresh engine with `[docB]`, plus the 0-then-3 scenario computed concretely. -/
theorem c2_taxonomy_accumulates_witness :
    ("v1.8" ∈ stB.taxonomy.Versions) ∧
    ("doc-b" ∈ stB.documents.map Prod.fst) ∧
    ((IndexDocuments allOkEnv [] freshEngine).bind
        (fun st => IndexDocuments allOkEnv [docA, docB, docC] st)).toOption.map
      SearchEngine.taxonomy =
      some ⟨["v1.7", "v1.8"], ["guides", "reference"], ["aws"], ["a", "b", "c"]⟩ := by
  have h : IndexDocuments allOkEnv [docB] freshEngine = Except.ok stB := by rfl
  have hthm := c2_taxonomy_accumulates h
  refine ⟨(hthm.1 "v1.8").mpr (Or.inr ⟨docB, by decide, rfl, by decide⟩),
          hthm.2.2.2.2.2 docB (by decide), ?_⟩
  rfl

/-- C9: rebuilding twice in sequence with an identical document list yields
the same active-generation document count after each run and the same four
taxonomy facet sets after each run. -/
theorem c9_rebuild_idempotent {env env' : SwapEnv} {docs : List Document}
    {st st1 st2 : SearchEngine}
    (h1 : IndexDocuments env docs st = Except.ok st1)
    (h2 : IndexDocuments env' docs st1 = Except.ok st2) :
    st2.active.length = st1.active.length ∧
    (∀ s, s ∈ st2.taxonomy.Versions ↔ s ∈ st1.taxonomy.Versions) ∧
    (∀ s, s ∈ st2.taxonomy.Sections ↔ s ∈ st1.taxonomy.Sections) ∧
    (∀ s, s ∈ st2.taxonomy.Platforms ↔ s ∈ st1.taxonomy.Platforms) ∧
    (∀ s, s ∈ st2.taxonomy.Tags ↔ s ∈ st1.taxonomy.Tags) := by
  obtain ⟨ha1, _, _, ht1⟩ := indexDocuments_ok_shape h1
  obtain ⟨ha2, _, _, ht2⟩ := indexDocuments_ok_shape h2
  refine ⟨by rw [ha1, ha2], ?_, ?_, ?_, ?_⟩
  · intro s
    rw [ht2, mem_versions_foldl]
    constructor
    · rintro (h | h)
      · exact h
      · rw [ht1, mem_versions_foldl]
        exact Or.inr h
    · exact Or.inl
  · intro s
    rw [ht2, mem_sections_foldl]
    constructor
    · rintro (h | h)
      · exact h
      · rw [ht1, mem_sections_foldl]
        exact Or.inr h
    · exact Or.inl
  · intro s
    rw [ht2, mem_platforms_foldl]
    constructor
    · rintro (h | h)
      · exact h
      · rw [ht1, mem_platforms_foldl]
        exact Or.inr h
    · exact Or.inl
  · intro s
    rw [ht2, mem_tags_foldl]
    constructor
    · rintro (h | h)
      · exact h
      · rw [ht1, mem_tags_foldl]
        exact Or.inr h
    · exact Or.inl

/-- The engine state after rebuilding the fresh engine with `[docA]`. -/
def stA : SearchEngine :=
{ active := [("doc-a", indexDocumentFields docA)], staging := [], backup := []
  documents := [("doc-a", docA)], taxonomy := ⟨["v1.7"], ["guides"], [], ["a"]⟩
  maxResults := 10, snippetLength := 200 }

/-- The engine state after rebuilding `stA` with `[docA]` again. -/
def stA2 : SearchEngine :=
{ active := [("doc-a", indexDocumentFields docA)], staging := []
  backup := [("doc-a", indexDocumentFields docA)]
  documents := [("doc-a", docA)], taxonomy := ⟨["v1.7"], ["guides"], [], ["a"]⟩
  maxResults := 10, snippetLength := 200 }

/-- C9 (witness): two concrete identical rebuilds of `[docA]`. -/
theorem c9_rebuild_idempotent_witness :
    stA2.active.length = stA.active.length ∧
    ("v1.7" ∈ stA2.taxonomy.Versions ↔ "v1.7" ∈ stA.taxonomy.Versions) := by
  have h1 : IndexDocuments allOkEnv [docA] freshEngine = Except.ok stA := by rfl
  have h2 : IndexDocuments allOkEnv [docA] stA = Except.ok stA2 := by rfl
  have hthm := c9_rebuild_idempotent h1 h2
  exact ⟨hthm.1, hthm.2.1 "v1.7"⟩

/-- C10: `GetTaxonomy` returns a copy holding exactly the entries of the
engine's four facet sets at call time, and the call leaves the engine state
unchanged (the returned value is built by inserting every entry into fresh
sets, so the engine's own maps are never handed out). -/
theorem c10_get_taxonomy_copy (st : SearchEngine) :
    (∀ s, s ∈ (GetTaxonomy st).Versions ↔ s ∈ st.taxonomy.Versions) ∧
    (∀ s, s ∈ (GetTaxonomy st).Sections ↔ s ∈ st.taxonomy.Sections) ∧
    (∀ s, s ∈ (GetTaxonomy st).Platforms ↔ s ∈ st.taxonomy.Platforms) ∧
    (∀ s, s ∈ (GetTaxonomy st).Tags ↔ s ∈ st.taxonomy.Tags) ∧
    (GetTaxonomyCall st).2 = st := by
  exact ⟨fun s => mem_copyStrSet, fun s => mem_copyStrSet, fun s => mem_copyStrSet,
         fun s => mem_copyStrSet, rfl⟩

/-- C3: with a non-empty Version/Section/Platform filter every returned
document satisfies the corresponding equality, while `Total` is the
primitive's unfiltered match count (so it can exceed the number of returned
results). -/
theorem c3_filters_and_total (st : SearchEngine) (matchIds : List String)
    (req : SearchRequest) :
    (∀ r ∈ (Search st matchIds req).Results,
        (req.Version ≠ "" → r.document.Version = req.Version) ∧
        (req.Section ≠ "" → r.document.Section = req.Section) ∧
        (req.Platform ≠ "" → r.document.Platform = req.Platform)) ∧
    (Search st matchIds req).Total = matchIds.length := by
  constructor
  · intro r hr
    simp only [Search, List.mem_filterMap] at hr
    obtain ⟨id, _, hph⟩ := hr
    have hf := processHit_filters hph
    exact ⟨passesFilters_version hf, passesFilters_section hf, passesFilters_platform hf⟩
  · rfl

/-- C3 (witness): over a corpus with a v1.7 and a v1.8 document, a
`version="v1.8"` query returns only the v1.8 document while `Total` counts
both matches. -/
theorem c3_filters_and_total_witness :
    ((⟨{ docB with Content := truncateContent docB.Content }, "", ""⟩ : SearchResult) ∈
        (Search stAB ["doc-a", "doc-b"] ⟨"q", "v1.8", "", "", [], 0⟩).Results) ∧
    ({ docB with Content := truncateContent docB.Content } : Document).Version = "v1.8" ∧
    (Search stAB ["doc-a", "doc-b"] ⟨"q", "v1.8", "", "", [], 0⟩).Total = 2 ∧
    (Search stAB ["doc-a", "doc-b"] ⟨"q", "v1.8", "", "", [], 0⟩).Results.length = 1 := by
  have h := c3_filters_and_total stAB ["doc-a", "doc-b"] ⟨"q", "v1.8", "", "", [], 0⟩
  have hmem : (⟨{ docB with Content := truncateContent docB.Content }, "", ""⟩ : SearchResult) ∈
      (Search stAB ["doc-a", "doc-b"] ⟨"q", "v1.8", "", "", [], 0⟩).Results := by decide
  exact ⟨hmem, (h.1 _ hmem).1 (by decide), h.2.trans (by decide), by decide⟩

/-- C4: returned content never exceeds the 10000-byte cap plus the truncation
marker; over-cap content is cut to exactly cap + marker length, at-or-under
cap content is returned unchanged. -/
theorem c4_content_cap (st : SearchEngine) (matchIds : List String)
    (req : SearchRequest) (c : String) :
    (∀ r ∈ (Search st matchIds req).Results,
        r.document.Content.length ≤ 10000 + truncMarker.length) ∧
    (c.length > 10000 → (truncateContent c).length = 10000 + truncMarker.length) ∧
    (c.length ≤ 10000 → truncateContent c = c) := by
  refine ⟨?_, fun h => truncateContent_over h, fun h => truncateContent_under h⟩
  intro r hr
  simp only [Search, List.mem_filterMap] at hr
  obtain ⟨id, _, hph⟩ := hr
  obtain ⟨c0, hc0⟩ := processHit_content hph
  rw [hc0]
  exact truncateContent_length_le c0

/-- A content string strictly over the cap. -/
def bigContent : String := String.mk (List.replicate 10050 'a')

/-- C4 (witness): the cap theorem applied to a 10050-byte content, a small
content, and a concrete search result. -/
theorem c4_content_cap_witness :
    bigContent.length > 10000 ∧
    (truncateContent bigContent).length = 10000 + truncMarker.length ∧
    (("beta" : String).length ≤ 10000 ∧ truncateContent "beta" = "beta") ∧
    (⟨{ docA with Content := truncateContent docA.Content }, "", ""⟩ : SearchResult).document.Content.length
      ≤ 10000 + truncMarker.length := by
  have h1 : bigContent.length > 10000 := by
    show (List.replicate 10050 'a').length > 10000
    rw [List.length_replicate]
    omega
  have hthm := c4_content_cap stAB ["doc-a"] ⟨"q", "", "", "", [], 0⟩ bigContent
  have hthm2 := c4_content_cap stAB ["doc-a"] ⟨"q", "", "", "", [], 0⟩ "beta"
  refine ⟨h1, hthm.2.1 h1, ⟨by decide, hthm2.2.2 (by decide)⟩, ?_⟩
  exact hthm.1 _ (by decide)

/-- C5: the requested result count is clamped to the fixed ceiling 5 —
unspecified (0) or above-ceiling limits become 5 — and the returned result
list never holds more than the effective limit, hence never more than 5. -/
theorem c5_limit_clamp (st : SearchEngine) (matchIds : List String)
    (req : SearchRequest) :
    (req.Limit = 0 ∨ req.Limit > 5 → effectiveLimit req = 5) ∧
    effectiveLimit req ≤ 5 ∧
    (Search st matchIds req).Results.length ≤ effectiveLimit req ∧
    (Search st matchIds req).Results.length ≤ 5 := by
  have he : effectiveLimit req ≤ 5 := by
    unfold effectiveLimit
    split
    · exact le_refl 5
    · next h =>
      push_neg at h
      omega
  have hlen : (Search st matchIds req).Results.length ≤ effectiveLimit req := by
    show ((matchIds.take (effectiveLimit req)).filterMap (processHit st req)).length ≤ _
    exact le_trans (List.length_filterMap_le _ _) (List.length_take_le _ _)
  refine ⟨fun h => ?_, he, hlen, le_trans hlen he⟩
  unfold effectiveLimit
  rw [if_pos h]

/-- C5 (witness): the clamp theorem at a zero limit and at seven matches. -/
theorem c5_limit_clamp_witness :
    effectiveLimit ⟨"q", "", "", "", [], 0⟩ = 5 ∧
    effectiveLimit ⟨"q", "", "", "", [], 9⟩ = 5 ∧
    (Search stAB ["doc-a", "doc-b", "x1", "x2", "x3", "x4", "x5"]
        ⟨"q", "", "", "", [], 0⟩).Results.length ≤ 5 := by
  exact ⟨(c5_limit_clamp stAB [] ⟨"q", "", "", "", [], 0⟩).1 (Or.inl rfl),
         (c5_limit_clamp stAB [] ⟨"q", "", "", "", [], 9⟩).1 (Or.inr (by decide)),
         (c5_limit_clamp stAB ["doc-a", "doc-b", "x1", "x2", "x3", "x4", "x5"]
           ⟨"q", "", "", "", [], 0⟩).2.2.2⟩

/-- C6: during the swap, a failing rename of active → backup (step 3) is
logged only and the swap still completes with the staged generation promoted;
a failing rename of staging → active (step 4) aborts the swap and surfaces as
the rebuild's error. -/
theorem c6_swap_error_policy (env : SwapEnv) (docs : List Document)
    (st : SearchEngine) :
    (env.renameStagingToActiveOk = false →
        IndexDocuments env docs st =
          Except.error "failed to atomic swap indices: failed to move staging index to active") ∧
    (env.renameActiveToBackupOk = false → env.renameStagingToActiveOk = true →
     env.reopenActiveOk = true → env.createStagingOk = true →
        (IndexDocuments env docs st).toOption.map SearchEngine.active =
          some (buildStaging docs)) := by
  constructor
  · intro h4
    unfold IndexDocuments atomicSwap
    rw [h4]
    rfl
  · intro h3 h4 h5 h6
    unfold IndexDocuments atomicSwap
    rw [h3, h4, h5, h6]
    simp only [if_true, Bool.false_eq_true, if_false, Except.toOption, Option.map]
    show some ((docs.foldl (fun s d => processDocStep d s) { st with staging := [] }).staging) =
      some (buildStaging docs)
    rw [foldl_processDocStep_staging]
    rfl

/-- C6 (witness): the two error-policy branches at concrete environments. -/
theorem c6_swap_error_policy_witness :
    IndexDocuments ⟨true, false, true, true⟩ [docA] freshEngine =
      Except.error "failed to atomic swap indices: failed to move staging index to active" ∧
    (IndexDocuments ⟨false, true, true, true⟩ [docA] freshEngine).toOption.map
      SearchEngine.active = some (buildStaging [docA]) := by
  exact ⟨(c6_swap_error_policy ⟨true, false, true, true⟩ [docA] freshEngine).1 rfl,
         (c6_swap_error_policy ⟨false, true, true, true⟩ [docA] freshEngine).2 rfl rfl rfl rfl⟩

/-- C7: a flat page reference resolves content by trying `.mdx` then `.md`;
if neither file resolves, or the resolved content is empty, no document is
produced, the page contributes nothing to the group's extraction, and the
overall extraction still succeeds without an error. -/
theorem c7_missing_or_empty_page (fs : String → Option String) (mt : String → Nat)
    (localPath tab version groupName platform pagePath : String)
    (rest : List PageItem) (tabs : List Tab) :
    (fs (joinPath3 localPath "public" (pagePath ++ ".mdx")) = none →
     fs (joinPath3 localPath "public" (pagePath ++ ".md")) = none →
     extractDocument fs mt localPath tab version groupName platform pagePath = none) ∧
    (fs (joinPath3 localPath "public" (pagePath ++ ".mdx")) = none →
     fs (joinPath3 localPath "public" (pagePath ++ ".md")) = some "" →
     extractDocument fs mt localPath tab version groupName platform pagePath = none) ∧
    (fs (joinPath3 localPath "public" (pagePath ++ ".mdx")) = some "" →
     extractDocument fs mt localPath tab version groupName platform pagePath = none) ∧
    (extractDocument fs mt localPath tab version groupName platform pagePath = none →
     extractDocumentsFromGroup fs mt localPath tab version groupName platform
         (PageItem.str pagePath :: rest) =
       extractDocumentsFromGroup fs mt localPath tab version groupName platform rest) ∧
    (ExtractDocuments fs mt localPath tabs).toOption.isSome = true := by
  refine ⟨?_, ?_, ?_, ?_, rfl⟩
  · intro h1 h2
    simp [extractDocument, h1, h2]
  · intro h1 h2
    simp [extractDocument, h1, h2]
  · intro h1
    simp [extractDocument, h1]
  · intro h
    show extractPageItem fs mt localPath tab version groupName platform (PageItem.str pagePath) ++ _ = _
    unfold extractPageItem
    rw [h]
    rfl

/-- An empty content store: no page has a backing file. -/
def fsNone : String → Option String := fun _ => none

/-- A store in which the page "install" backs onto an empty `.md` file. -/
def fsEmptyMd : String → Option String := fun p =>
  if p = "/repo/public/install.md" then some "" else none

/-- A store in which the page "install" backs onto an empty `.mdx` file. -/
def fsEmptyMdx : String → Option String := fun p =>
  if p = "/repo/public/install.mdx" then some "" else none

/-- C7 (witness): the drop-silently theorem at concrete stores — both files
missing, empty `.md`, empty `.mdx` — and a concrete one-page group. -/
theorem c7_missing_or_empty_page_witness :
    extractDocument fsNone (fun _ => 0) "/repo" "Talos" "v1.8" "Guides" "" "install" = none ∧
    extractDocument fsEmptyMd (fun _ => 0) "/repo" "Talos" "v1.8" "Guides" "" "install" = none ∧
    extractDocument fsEmptyMdx (fun _ => 0) "/repo" "Talos" "v1.8" "Guides" "" "install" = none ∧
    extractDocumentsFromGroup fsNone (fun _ => 0) "/repo" "Talos" "v1.8" "Guides" ""
      [PageItem.str "install"] = [] ∧
    (ExtractDocuments fsNone (fun _ => 0) "/repo"
      [⟨"Talos", [⟨"v1.8", [⟨"Guides", [PageItem.str "install"]⟩]⟩]⟩]).toOption.isSome = true := by
  have h1 := c7_missing_or_empty_page fsNone (fun _ => 0) "/repo" "Talos" "v1.8" "Guides" ""
    "install" [] []
  have h2 := c7_missing_or_empty_page fsEmptyMd (fun _ => 0) "/repo" "Talos" "v1.8" "Guides" ""
    "install" [] []
  have h3 := c7_missing_or_empty_page fsEmptyMdx (fun _ => 0) "/repo" "Talos" "v1.8" "Guides" ""
    "install" [] []
  have h4 := c7_missing_or_empty_page fsNone (fun _ => 0) "/repo" "Talos" "v1.8" "Guides" ""
    "install" [] [⟨"Talos", [⟨"v1.8", [⟨"Guides", [PageItem.str "install"]⟩]⟩]⟩]
  refine ⟨h1.1 rfl rfl, h2.2.1 rfl rfl, h3.2.2.1 rfl,
          (h1.2.2.2.1 (h1.1 rfl rfl)).trans rfl, h4.2.2.2.2⟩

/-- The content store of the C8 scenario: `install.mdx` is absent and
`install.md` holds the heading plus one body line. -/
def fsScenario : String → Option String := fun p =>
  if p = "/repo/public/install.md" then some "# Installing\nRun the installer." else none

/-- File modification times for the C8 scenario. -/
def mtScenario : String → Nat := fun _ => 0

/-- The C8 manifest fragment: one group "Guides" with the flat page
"install". -/
def groupsScenario : List Group := [⟨"Guides", [PageItem.str "install"]⟩]

/-- C8 (counterexample): for the claimed manifest and backing file, extraction
yields the single document id "v1.8-guides-install" with tag list
["install"] — the tag "guides" claimed by the specification is absent,
because `extractTags` derives tags from path segments and content keywords
only, never from the group name. -/
theorem c8_counterexample :
    (extractDocumentsFromVersion fsScenario mtScenario "/repo" "Talos" "v1.8" groupsScenario).map
      (fun d => (d.ID, d.Tags)) = [("v1.8-guides-install", ["install"])] ∧
    ("guides" : String) ∉ (["install"] : List String) := by
  exact ⟨rfl, by decide⟩

/-- C8 (amended): for the scenario manifest ("Talos" tab, version "v1.8",
group "Guides", page "install") with backing file `install.md` containing
`# Installing\nRun the installer.`, extraction yields exactly one document
with id "v1.8-guides-install", title "Installing", and tag list ["install"]
(containing "install" but not "guides"). -/
theorem c8_amended_scenario :
    extractDocumentsFromVersion fsScenario mtScenario "/repo" "Talos" "v1.8" groupsScenario =
      [{ ID := "v1.8-guides-install", Title := "Installing",
         Content := "# Installing\nRun the installer.", Path := "install",
         Version := "v1.8", Section := "Guides", Platform := "",
         Tags := ["install"], LastUpdated := 0,
         Metadata := [("tab", "Talos"), ("file_path", "/repo/public/install.md")] }] := by
  rfl

/-! ### C1: the rebuild/query interleaving theorems -/

theorem rebuildPure_eq (docs : List Document) (st : SearchEngine) :
    rebuildPure docs st =
      applyW WStep.swapStep
        (docs.foldl (fun s d => processDocStep d s) { st with staging := [] }) := by
  unfold rebuildPure wsteps
  simp only [List.foldl_cons, List.foldl_append, List.foldl_map]
  rfl

/-- After a completed rebuild the active generation is exactly the staging
build of the rebuild's document list. -/
theorem rebuildPure_active (docs : List Document) (st : SearchEngine) :
    (rebuildPure docs st).active = buildStaging docs := by
  rw [rebuildPure_eq]
  show (docs.foldl (fun s d => processDocStep d s) { st with staging := [] }).staging =
    buildStaging docs
  rw [foldl_processDocStep_staging]
  rfl

theorem mapInsert_ne_nil {α : Type} (m : List (String × α)) (k : String) (v : α) :
    mapInsert m k v ≠ [] := by
  unfold mapInsert
  split
  · next h =>
    intro he
    rw [List.map_eq_nil_iff] at he
    subst he
    simp at h
  · simp

theorem foldl_mapInsert_ne_nil (docs : List Document) :
    ∀ m : List (String × IndexedDoc), m ≠ [] →
      docs.foldl (fun m d => mapInsert m d.ID (indexDocumentFields d)) m ≠ [] := by
  induction docs with
  | nil => intro m hm; exact hm
  | cons d rest ih =>
    intro m _
    rw [List.foldl_cons]
    exact ih _ (mapInsert_ne_nil _ _ _)

/-- A rebuild of a non-empty document list yields a non-empty active
generation. -/
theorem buildStaging_ne_nil {docs : List Document} (h : docs ≠ []) :
    buildStaging docs ≠ [] := by
  cases docs with
  | nil => exact absurd rfl h
  | cons d rest =>
    unfold buildStaging
    rw [List.foldl_cons]
    exact foldl_mapInsert_ne_nil rest _ (mapInsert_ne_nil _ _ _)

/-- After the writer released the lock no further state change happens: every
later observation sees the final state. -/
theorem obs_phaseC (σf : SearchEngine) :
    ∀ t : List REv, lockOk false t = true → t.filter isWriter = [] →
      ∀ σ ∈ obsStates t σf, σ = σf := by
  intro t
  induction t with
  | nil =>
    intro _ _ σ hσ
    cases hσ
  | cons e rest ih =>
    intro hl hw σ hσ
    cases e with
    | obs r =>
      rw [List.filter_cons_of_neg (by simp [isWriter])] at hw
      simp only [lockOk, Bool.not_false, Bool.true_and] at hl
      rcases List.mem_cons.mp hσ with rfl | hmem
      · rfl
      · exact ih hl hw σ hmem
    | acq => simp [List.filter_cons, isWriter] at hw
    | rel => simp [List.filter_cons, isWriter] at hw
    | wstep w => simp [List.filter_cons, isWriter] at hw

/-- While the writer holds the lock no observation is admissible; once the
remaining writer events are the micro-steps `ws` followed by the release,
every later observation sees the state after running `ws`. -/
theorem obs_phaseB :
    ∀ (t : List REv) (ws : List WStep) (σ : SearchEngine),
      lockOk true t = true →
      t.filter isWriter = ws.map REv.wstep ++ [REv.rel] →
      ∀ σo ∈ obsStates t σ, σo = ws.foldl (fun s w => applyW w s) σ := by
  intro t
  induction t with
  | nil =>
    intro ws σ _ _ σo hσ
    cases hσ
  | cons e rest ih =>
    intro ws σ hl hw σo hσ
    cases e with
    | obs r => simp [lockOk] at hl
    | acq =>
      rw [List.filter_cons_of_pos (by simp [isWriter])] at hw
      cases ws with
      | nil => simp at hw
      | cons w ws' => simp at hw
    | rel =>
      rw [List.filter_cons_of_pos (by simp [isWriter])] at hw
      cases ws with
      | nil =>
        simp only [List.map_nil, List.nil_append, List.cons.injEq, true_and] at hw
        simp only [lockOk] at hl
        simp only [List.foldl_nil]
        exact obs_phaseC σ rest hl hw σo hσ
      | cons w ws' => simp at hw
    | wstep w =>
      rw [List.filter_cons_of_pos (by simp [isWriter])] at hw
      cases ws with
      | nil => simp at hw
      | cons w' ws' =>
        simp only [List.map_cons, List.cons_append, List.cons.injEq, REv.wstep.injEq] at hw
        obtain ⟨rfl, hw'⟩ := hw
        simp only [lockOk] at hl
        simp only [List.foldl_cons]
        exact ih ws' (applyW w σ) hl hw' σo hσ

/-- Before the writer acquired the lock the state is still the initial one;
after the release it is the rebuilt one. -/
theorem obs_phaseA (docs : List Document) (σ0 : SearchEngine) :
    ∀ t : List REv, lockOk false t = true →
      t.filter isWriter = writerProg docs →
      ∀ σ ∈ obsStates t σ0, σ = σ0 ∨ σ = rebuildPure docs σ0 := by
  intro t
  induction t with
  | nil =>
    intro _ _ σ hσ
    cases hσ
  | cons e rest ih =>
    intro hl hw σ hσ
    cases e with
    | obs r =>
      rw [List.filter_cons_of_neg (by simp [isWriter])] at hw
      simp only [lockOk, Bool.not_false, Bool.true_and] at hl
      rcases List.mem_cons.mp hσ with rfl | hmem
      · exact Or.inl rfl
      · exact ih hl hw σ hmem
    | acq =>
      rw [List.filter_cons_of_pos (by simp [isWriter])] at hw
      unfold writerProg at hw
      injection hw with _ hw
      simp only [lockOk] at hl
      exact Or.inr (obs_phaseB rest (wsteps docs) σ0 hl hw σ hσ)
    | rel =>
      rw [List.filter_cons_of_pos (by simp [isWriter])] at hw
      unfold writerProg at hw
      simp at hw
    | wstep w =>
      rw [List.filter_cons_of_pos (by simp [isWriter])] at hw
      unfold writerProg at hw
      simp at hw

/-- C1 (amended): in every admissible interleaving of one successful rebuild
with any number of concurrent queries — writer events in program order under
the writer lock, no observation while the lock is held — each query observes
either the complete pre-rebuild engine state or the complete post-rebuild
engine state, never a mixture; the post-rebuild active generation is exactly
the rebuild's document list, and when the pre-rebuild active generation was
non-empty and the rebuild's document list is non-empty, no query observes
zero documents.  (The unqualified claim fails for an empty rebuild list: see
the counterexample.) -/
theorem c1_swap_atomicity (docs : List Document) (σ0 : SearchEngine) (t : List REv)
    (hlock : lockOk false t = true)
    (hwriter : t.filter isWriter = writerProg docs) :
    ∀ σ ∈ obsStates t σ0,
      (σ = σ0 ∨ σ = rebuildPure docs σ0) ∧
      (rebuildPure docs σ0).active = buildStaging docs ∧
      (σ0.active ≠ [] → docs ≠ [] → σ.active ≠ []) := by
  intro σ hσ
  have hpp := obs_phaseA docs σ0 t hlock hwriter σ hσ
  refine ⟨hpp, rebuildPure_active docs σ0, ?_⟩
  intro h0 hd
  rcases hpp with rfl | rfl
  · exact h0
  · rw [rebuildPure_active]
    exact buildStaging_ne_nil hd

/-- An admissible schedule: one query observation before the rebuild of
`[docA]`, one after. -/
def c1trace : List REv :=
[REv.obs 0, REv.acq, REv.wstep WStep.clearStaging, REv.wstep (WStep.proc docA),
 REv.wstep WStep.swapStep, REv.rel, REv.obs 1]

/-- C1 (witness): the atomicity theorem at the concrete schedule `c1trace`
over the two-document engine `stAB`, for the observation before the swap. -/
theorem c1_swap_atomicity_witness :
    (stAB = stAB ∨ stAB = rebuildPure [docA] stAB) ∧
    (rebuildPure [docA] stAB).active = buildStaging [docA] ∧
    stAB.active ≠ [] := by
  have h := c1_swap_atomicity [docA] stAB c1trace (by decide) (by decide) stAB (by decide)
  exact ⟨h.1, h.2.1, h.2.2 (by decide) (by decide)⟩

/-- An admissible schedule in which the rebuild carries an empty document
list and a query observes afterwards. -/
def c1emptyTrace : List REv :=
[REv.acq, REv.wstep WStep.clearStaging, REv.wstep WStep.swapStep, REv.rel, REv.obs 0]

/-- C1 (counterexample): in the admissible schedule `c1emptyTrace` the
rebuild's document list is empty, the pre-rebuild active generation is
non-empty, and the query's observation sees an active generation with zero
documents — refuting the unqualified "never zero documents if a valid active
generation existed before the rebuild". -/
theorem c1_counterexample :
    lockOk false c1emptyTrace = true ∧
    c1emptyTrace.filter isWriter = writerProg [] ∧
    stAB.active ≠ [] ∧
    (obsStates c1emptyTrace stAB).map SearchEngine.active = [[]] := by
  exact ⟨by decide, by decide, by decide, by decide⟩

end TalosMCP
